import Mathlib

/-!
Verification of the `state-machine` library (KronsyC/state-machine) against its
natural-language design specification.

The development shallowly embeds two C++ classes:

* `RB` models `regex_backend::MutableStateMachine<Value_T>` from
  `src/include/regex-backend/builder.h`: the execution primitives
  (`matches`, `lookup`, `find_first`, `find_many`) and that class's
  `optimize` (`remove_duplicates`, `nullify_orphans`, `remove_blanks`).
  Handles are 1-based; handle 0 means "no transition"; a node's transition
  table has 129 slots (bytes 0..127 plus the EOF slot at index 128).
  The node type itself (`#include "./node.h"` of that header) is not part of
  the source tree; its shape is fully determined by its uses and by the
  specification (see `RB.Node`).

* `SMI` models `regex_backend::internal::StateMachine` from
  `src/include/regex-backend/state_machine_internal/builder.h`, with the
  char node specialization of `state_machine_internal/node.h`
  (array of 130 slots: value keys 0..127, EOF at 128, default at 129), and
  the void value cell `Node_Value<void>` (just a `back_by` count).

Machine integers (`size_t` handles, counters) are modelled as `Nat`; the
code never exercises overflow.  Functions that can call `mutils::PANIC`
(which aborts the process) return `Except String`.
-/

namespace RB

/-- Modelled from the spec: the node type of `regex_backend::MutableStateMachine`
is included from a `node.h` that is absent from the source tree; per spec §3 a
node holds a transition map from key to destination handle (0 = none; the byte
specialization is a fixed array of the 128 byte keys plus the EOF slot used at
index 128), an optional accepting value (`terminal : bool` for pure machines,
which we render as `value : Option V` with `V = Unit`), and the `consume_char`
flag that the duplicate-fusion comparator reads. -/
structure Node (V : Type) where
  transitions : Nat → Nat
  value : Option V
  consumeChar : Bool

/-- The machine: a flat node store.  Handle `h` (1-based) names `nodes[h-1]`;
handle 1 is the root (`_m_nodes[0]`). -/
structure Machine (V : Type) where
  nodes : List (Node V)

/-- A node with no value and no transitions (also the shape `nullify()` leaves). -/
def emptyNode (V : Type) : Node V :=
  { transitions := fun _ => 0, value := none, consumeChar := true }

/-- `get_node(number)`: 1-based access into the store. -/
def getNode {V : Type} (M : Machine V) (h : Nat) : Node V :=
  M.nodes.getD (h - 1) (emptyNode V)

/-- The EOF transition key used by `matches<true>` (slot 128). -/
def eofKey : Nat := 128

/-- Code side, `MutableStateMachine::matches` (string mode), builder.h:562-604:
walk from `node`, one symbol per step; on a 0 destination return the miss
result; after the last symbol return the final node's value (pure machines
return `can_exit()`, i.e. `isSome` of this). -/
def matchesFromStr {V : Type} (M : Machine V) (n : Nat) : List Nat → Option V
  | [] => (getNode M n).value
  | c :: rest =>
    let t := (getNode M n).transitions c
    if t = 0 then none else matchesFromStr M t rest

/-- `matches<false>`, started at the root (handle 1). -/
def matchesStr {V : Type} (M : Machine V) (s : List Nat) : Option V :=
  matchesFromStr M 1 s

/-- Code side, `MutableStateMachine::matches<true>` (file mode): the loop runs
one extra iteration with `c = 128` after the last input symbol. -/
def matchesFileGo {V : Type} (M : Machine V) (n : Nat) : List Nat → Option V
  | [] =>
    let t := (getNode M n).transitions eofKey
    if t = 0 then none else (getNode M t).value
  | c :: rest =>
    let t := (getNode M n).transitions c
    if t = 0 then none else matchesFileGo M t rest

/-- `matches<true>`, started at the root. -/
def matchesFile {V : Type} (M : Machine V) (s : List Nat) : Option V :=
  matchesFileGo M 1 s

/-- Spec side (§4.4 "Full match"): walk from a node consuming one symbol per
step; a 0 destination fails the walk. -/
def walkFrom {V : Type} (M : Machine V) (n : Nat) : List Nat → Option Nat
  | [] => some n
  | c :: rest =>
    let t := (getNode M n).transitions c
    if t = 0 then none else walkFrom M t rest

/-- Spec side: the walk from the root. -/
def walkRoot {V : Type} (M : Machine V) (s : List Nat) : Option Nat :=
  walkFrom M 1 s

/-- Spec side: the value delivered by a successful walk ending on a node. -/
def acceptVal {V : Type} (M : Machine V) (s : List Nat) : Option V :=
  (walkRoot M s).bind fun n => (getNode M n).value

/-- Code side, `MutableStateMachine::lookup` (builder.h:614-649) and,
identically, the inner anchored scan of `find_first` (builder.h:678-693): walk
from node `n`; whenever the node entered by a transition `can_exit`, remember
the input position `i` of the consumed symbol and that node's value as the
best-so-far; stop on a 0 destination or at the end of input and return the
best-so-far (`none` is the miss sentinel `end = nullptr`). -/
def lookupFrom {V : Type} (M : Machine V) : Nat → Nat → Option (Nat × V) → List Nat → Option (Nat × V)
  | _, _, best, [] => best
  | n, i, best, c :: rest =>
    let idx := (getNode M n).transitions c
    if idx = 0 then best
    else
      lookupFrom M idx (i + 1)
        (match (getNode M idx).value with
         | some v => some (i, v)
         | none => best) rest

/-- `lookup`, started at the root with no best-so-far. -/
def lookupStart {V : Type} (M : Machine V) (s : List Nat) : Option (Nat × V) :=
  lookupFrom M 1 0 none s

/-- Spec side (§4.4 "Prefix lookup", stated over prefixes): whether the prefix
of length `k` of the input walks from node `n` to an accepting node. -/
def acceptsFrom {V : Type} (M : Machine V) (n : Nat) (s : List Nat) (k : Nat) : Bool :=
  match walkFrom M n (s.take k) with
  | some m => (getNode M m).value.isSome
  | none => false

/-- Spec side: the payload at the node reached by the prefix of length `k`. -/
def payloadFrom {V : Type} (M : Machine V) (n : Nat) (s : List Nat) (k : Nat) : Option V :=
  (walkFrom M n (s.take k)).bind fun m => (getNode M m).value

/-- Spec side, from the root. -/
def acceptsAt {V : Type} (M : Machine V) (s : List Nat) (k : Nat) : Bool :=
  acceptsFrom M 1 s k

/-- Spec side, from the root. -/
def payloadAt {V : Type} (M : Machine V) (s : List Nat) (k : Nat) : Option V :=
  payloadFrom M 1 s k

/-- Spec side: the longest accepting prefix of the input along the walk from
node `n`, as `some (j, v)` where `j` is the 0-based input position of the last
symbol of that prefix (so the prefix has length `j + 1`) and `v` its payload;
`none` when no nonempty prefix is accepting. -/
def longestAccept {V : Type} (M : Machine V) (n : Nat) : List Nat → Option (Nat × V)
  | [] => none
  | c :: rest =>
    let t := (getNode M n).transitions c
    if t = 0 then none
    else
      match longestAccept M t rest with
      | some (j, v) => some (j + 1, v)
      | none =>
        match (getNode M t).value with
        | some v => some (0, v)
        | none => none

/-- Code side, `MutableStateMachine::find_first` (builder.h:662-714): anchor at
successive offsets (`ss` walks the suffixes of the input); at each anchor run
the greedy scan (the same loop as `lookup`); return the first hit as
`(begin, end, value)` where `begin` is the anchor offset and `end` the absolute
position of the last symbol of the match. -/
def findFirstGo {V : Type} (M : Machine V) : List Nat → Nat → Option (Nat × Nat × V)
  | [], _ => none
  | c :: rest, off =>
    match lookupFrom M 1 off none (c :: rest) with
    | some (p, v) => some (off, p, v)
    | none => findFirstGo M rest (off + 1)

/-- `find_first`, from the start of the input. -/
def findFirstStart {V : Type} (M : Machine V) (s : List Nat) : Option (Nat × Nat × V) :=
  findFirstGo M s 0

/-- Code side, `MutableStateMachine::find_many` (builder.h:725-743): iterate
`find_first`; after each hit the code sets `cur = result.end` — the position of
the last matched symbol, not one past it (its own comment says "equal to
end + 1").  The C++ `while (*cur != 0)` loop has no termination device, and
with a length-1 hit it repeats forever; the model spends one unit of fuel per
hit, which reproduces the C++ output exactly whenever the C++ loop terminates. -/
def findManyGo {V : Type} (M : Machine V) (s : List Nat) : Nat → Nat → List (Nat × Nat × V)
  | _, 0 => []
  | cur, fuel + 1 =>
    if cur < s.length then
      match findFirstGo M (s.drop cur) cur with
      | none => []
      | some (b, e, v) => (b, e, v) :: findManyGo M s e fuel
    else []

/-- `find_many`, from the start of the input. -/
def findManyStart {V : Type} (M : Machine V) (s : List Nat) : List (Nat × Nat × V) :=
  findManyGo M s 0 (s.length + 1)

/-- Transition function built from an association list of (key, destination). -/
def trOf (ps : List (Nat × Nat)) : Nat → Nat := fun c =>
  (((ps.find? fun p => p.1 == c).map fun p => p.2).getD 0)

/-- The machine accepting exactly "ab" and "ba" (pure; values are `Unit`):
root --a--> 2 --b--> 3(accepting), root --b--> 4 --a--> 5(accepting).
Used to exercise `find_many` on the input "aba". -/
def machineAbBa : Machine Unit :=
  { nodes :=
      [ { transitions := trOf [(97, 2), (98, 4)], value := none, consumeChar := true },
        { transitions := trOf [(98, 3)], value := none, consumeChar := true },
        { transitions := trOf [], value := some (), consumeChar := true },
        { transitions := trOf [(97, 5)], value := none, consumeChar := true },
        { transitions := trOf [], value := some (), consumeChar := true } ] }

/-- A machine whose root is accepting (it accepts the empty string, like the
spec's "Overlapping literals" scenario) and has no transitions. -/
def machineRootAccepting : Machine Nat :=
  { nodes := [ { transitions := trOf [], value := some 7, consumeChar := true } ] }

/-- `is_null()` of the node (per the spec: no accepting value and every
transition slot 0; the 129 slots of the byte node). -/
def isNullRB {V : Type} (nd : Node V) : Bool :=
  nd.value.isNone && ((List.range 129).all fun i => nd.transitions i == 0)

/-- The duplicate comparator of `remove_duplicates_once` (builder.h:1286-1315):
equal `consume_char`, equal accepting cell (`terminal` for pure machines,
`value` for valued ones), and slotwise-equal transition tables where a slot in
which both nodes refer to themselves also counts as equal. -/
def rbNodeEq {V : Type} [DecidableEq V] (node other : Node V) (nodeIdx otherIdx : Nat) : Bool :=
  decide (node.consumeChar = other.consumeChar)
  && decide (node.value = other.value)
  && ((List.range 129).all fun i =>
        node.transitions i == other.transitions i
        || (other.transitions i == otherIdx && node.transitions i == nodeIdx))

/-- One `noderef` step of `remove_duplicates_once` at 0-based store position
`pos` (handle `pos + 1`): skip null nodes; otherwise find the first node in
`[begin, noderef)` — a range that starts at the root — equal under the
self-reference rule; if that node is non-null, redirect every transition aimed
at it to this node and nullify it. -/
def rbFuseAt {V : Type} [DecidableEq V] (ns : List (Node V)) (pos : Nat) :
    List (Node V) × Bool :=
  let node := ns.getD pos (emptyNode V)
  if isNullRB node then (ns, false)
  else
    match (List.range pos).find? fun j =>
        rbNodeEq node (ns.getD j (emptyNode V)) (pos + 1) (j + 1) with
    | none => (ns, false)
    | some j =>
      if isNullRB (ns.getD j (emptyNode V)) then (ns, false)
      else
        let oldIdx := j + 1
        let newIdx := pos + 1
        let ns1 := ns.map fun nd =>
          { nd with
            transitions := fun c =>
              if nd.transitions c = oldIdx then newIdx else nd.transitions c }
        (ns1.set j (emptyNode V), true)

/-- One full backward sweep of `remove_duplicates_once`: positions
`len-1, ..., 1` (the reverse iteration stops before the root). -/
def rbDupPass {V : Type} [DecidableEq V] (ns : List (Node V)) : List (Node V) × Bool :=
  (((List.range ns.length).drop 1).reverse).foldl
    (fun acc pos =>
      let r := rbFuseAt acc.1 pos
      (r.1, acc.2 || r.2))
    (ns, false)

/-- `remove_duplicates`: repeat the sweep until it reports no fusion.  Each
fusing sweep nullifies at least one non-null node, so `len + 1` units of fuel
always reach the C++ fixpoint. -/
def rbRemoveDups {V : Type} [DecidableEq V] : Nat → List (Node V) → List (Node V)
  | 0, ns => ns
  | fuel + 1, ns =>
    let r := rbDupPass ns
    if r.2 then rbRemoveDups fuel r.1 else r.1

/-- The 0-based store positions kept by `remove_blanks`: the root and every
non-null node. -/
def rbKeptPositions {V : Type} (ns : List (Node V)) : List Nat :=
  (List.range ns.length).filter fun p => p == 0 || !isNullRB (ns.getD p (emptyNode V))

/-- The handle remapping of `remove_blanks`: a kept position gets its 1-based
rank in keep order; a dropped position maps to 0. -/
def rbMapping {V : Type} (ns : List (Node V)) (p : Nat) : Nat :=
  match (rbKeptPositions ns).findIdx? (fun q => q == p) with
  | some k => k + 1
  | none => 0

/-- `remove_blanks` (builder.h:1371-1397): keep root and non-null nodes, then
rewrite every non-zero transition through the remapping. -/
def rbRemoveBlanks {V : Type} (ns : List (Node V)) : List (Node V) :=
  (rbKeptPositions ns).map fun p =>
    let nd := ns.getD p (emptyNode V)
    { nd with
      transitions := fun c =>
        let t := nd.transitions c
        if t = 0 then 0 else rbMapping ns (t - 1) }

/-- `MutableStateMachine::optimize` (builder.h:529-537): `remove_duplicates`,
then `nullify_orphans`, then `remove_blanks`.  In this class `nullify_orphans`
(builder.h:1338-1369) computes reachability but its nullification statement is
commented out (and it touches no cursors), so it leaves the node store
unchanged and is omitted here. -/
def rbOptimize {V : Type} [DecidableEq V] (M : Machine V) : Machine V :=
  ⟨rbRemoveBlanks (rbRemoveDups (M.nodes.length + 1) M.nodes)⟩

/-- The minimal DFA of `a(aa)*` (accepts the odd-length runs of `a`):
root --a--> 2(accepting) --a--> 3 --a--> 2.  Its node 3 has the same
transition table, terminal flag and `consume_char` as the root. -/
def machineOddAs : Machine Unit :=
  { nodes :=
      [ { transitions := trOf [(97, 2)], value := none, consumeChar := true },
        { transitions := trOf [(97, 3)], value := some (), consumeChar := true },
        { transitions := trOf [(97, 2)], value := none, consumeChar := true } ] }

end RB

namespace SMI

/-- `ConflictAction` (state_machine_internal/builder.h:36-40). -/
inductive ConflictAction
  | skip
  | overwrite
  | error
deriving DecidableEq

/-- The char specialization of `StateMachineNode` (state_machine_internal/node.h:
256-405), dynamic: a 130-slot transition array (value keys 0..127, the EOF slot
at 128, the default slot at 129) and an optional `Node_Value<void>` accepting
cell, which carries only the `back_by` count (modelled as `Option Nat`). -/
structure Node where
  transitions : Nat → Nat
  value : Option Nat

/-- A default-constructed node: all slots 0, no value (also what `nullify()`
produces). -/
def zeroNode : Node :=
  { transitions := fun _ => 0, value := none }

/-- The construction state of `internal::StateMachine`: the node store
(1-based handles), the cursor list, and the conflict action. -/
structure Builder where
  nodes : List Node
  cursors : List Nat
  onConflict : ConflictAction

/-- `get_node(index)`: 1-based access. -/
def getN (ns : List Node) (h : Nat) : Node :=
  ns.getD (h - 1) zeroNode

/-- Write one transition slot of the node with handle `h`. -/
def setT (ns : List Node) (h key dst : Nat) : List Node :=
  ns.set (h - 1)
    (let nd := getN ns h
     { nd with transitions := fun k => if k = key then dst else nd.transitions k })

/-- The EOF slot index of the char node (`eof_idx = 128`). -/
def eofSlot : Nat := 128

/-- The default slot index of the char node (`def_idx = 129`). -/
def defSlot : Nat := 129

/-- `is_null()`: no value and all 130 slots 0. -/
def isNullN (nd : Node) : Bool :=
  nd.value.isNone && ((List.range 130).all fun k => nd.transitions k == 0)

/-- The keys visited by `each_transition` / `get_transitions` of the char node,
in their order: value keys 0..127 ascending with a nonzero slot, then the EOF
slot if nonzero, then the default slot if nonzero. -/
def keysOf (nd : Node) : List Nat :=
  ((List.range 128).filter fun k => nd.transitions k ≠ 0)
    ++ (if nd.transitions eofSlot ≠ 0 then [eofSlot] else [])
    ++ (if nd.transitions defSlot ≠ 0 then [defSlot] else [])

/-- The (key, destination) pairs of `get_transitions` (all destinations are
nonzero). -/
def transPairs (nd : Node) : List (Nat × Nat) :=
  (keysOf nd).map fun k => (k, nd.transitions k)

/-- The default-slot destination of a cursor in a builder. -/
def defOf (B : Builder) (c : Nat) : Nat :=
  (getN B.nodes c).transitions defSlot

/-- Code side, `match_default` (state_machine_internal/builder.h:124-159):
allocate one fresh node; for each cursor, install it as the default transition
if that slot is empty, and otherwise apply the conflict action — skip pushes
the pre-existing default destination onto the new cursor list, overwrite
replaces the slot, error records a diagnostic; if any diagnostics were
recorded the construction fails; the new cursor list starts with the fresh
node.  `mdStep` is the per-cursor loop body, threading
(node store, new cursor list, recorded error count). -/
def mdStep (policy : ConflictAction) (dIdx : Nat)
    (acc : List Node × List Nat × Nat) (cursor : Nat) : List Node × List Nat × Nat :=
  let deflt := (getN acc.1 cursor).transitions defSlot
  if deflt = 0 then (setT acc.1 cursor defSlot dIdx, acc.2.1, acc.2.2)
  else
    match policy with
    | ConflictAction.skip => (acc.1, acc.2.1 ++ [deflt], acc.2.2)
    | ConflictAction.overwrite => (setT acc.1 cursor defSlot dIdx, acc.2.1, acc.2.2)
    | ConflictAction.error => (acc.1, acc.2.1, acc.2.2 + 1)

/-- `match_default` proper: run the loop from the fresh store and empty
accumulators, fail if any error was recorded, else the cursors are the fresh
node followed by the skipped pre-existing defaults. -/
def matchDefault (B : Builder) : Except String Builder :=
  let dIdx := B.nodes.length + 1
  let r := B.cursors.foldl (mdStep B.onConflict dIdx) (B.nodes ++ [zeroNode], [], 0)
  if r.2.2 ≠ 0 then Except.error "existing default transition would be replaced"
  else Except.ok { nodes := r.1, cursors := dIdx :: r.2.1, onConflict := B.onConflict }

/-- Code side, `cursor_discreet_transition` (state_machine_internal/builder.h:
927-981): partition the cursors by whether they already have a destination on
the key; all cursors lacking it share one fresh node; each cursor already
holding one gets its own intermediary clone of the old destination (with the
self-loop fix when the old destination was the cursor itself). -/
def cursorDiscreetTransition (B : Builder) (key : Nat) : Builder :=
  let withoutChild := B.cursors.filter fun c => (getN B.nodes c).transitions key = 0
  let withChild := B.cursors.filter fun c => (getN B.nodes c).transitions key ≠ 0
  let step1 : List Node × List Nat :=
    if withoutChild.isEmpty then (B.nodes, [])
    else
      let dIdx := B.nodes.length + 1
      (withoutChild.foldl (fun ns c => setT ns c key dIdx) (B.nodes ++ [zeroNode]), [dIdx])
  let step2 : List Node × List Nat :=
    withChild.foldl
      (fun acc c =>
        let oldTarget := (getN acc.1 c).transitions key
        let interIdx := acc.1.length + 1
        let clone0 := getN acc.1 oldTarget
        let clone1 :=
          if oldTarget = c then
            { clone0 with
              transitions := fun k => if k = key then interIdx else clone0.transitions k }
          else clone0
        (setT (acc.1 ++ [clone1]) c key interIdx, acc.2 ++ [interIdx]))
      (step1.1, [])
  { B with nodes := step2.1, cursors := step1.2 ++ step2.2 }

/-- The per-choice loop of `match_any_of` (state_machine_internal/builder.h:
177-242, char path): each choice transitions from the initial cursor set
(restored after every choice) and the resulting cursors accumulate. -/
def matchAnyOfGo (B : Builder) (initial : List Nat) : List Nat → List Nat → Builder
  | [], acc => { B with cursors := acc }
  | c :: rest, acc =>
    let B1 := cursorDiscreetTransition { B with cursors := initial } c
    matchAnyOfGo { B1 with cursors := initial } initial rest (acc ++ B1.cursors)

/-- Code side, `match_any_of`: allocates a node `target` at entry that is never
used afterwards, then runs the per-choice loop. -/
def matchAnyOf (B : Builder) (options : List Nat) : Builder :=
  let B1 : Builder := { B with nodes := B.nodes ++ [zeroNode] }
  matchAnyOfGo B1 B1.cursors options []

/-- The result of `consume_regex_except_root`: the handle shift applied to the
pattern's internal handles, and the sub-terminal handles. -/
structure ConsumeResult where
  base : Nat
  terminals : List Nat

/-- Code side, `consume_regex_except_root` (state_machine_internal/builder.h:
731-760): copy every non-root pattern node into the host, shifting its
transitions by `base = host_size - 1`; a pattern node with handle `idx` lands
at handle `idx + base` (the recorded mapping), and accepting pattern nodes are
recorded in the terminal list — their accepting value itself is not copied. -/
def consumeRegexExceptRoot (B : Builder) (p : Builder) : Builder × ConsumeResult :=
  let base := B.nodes.length - 1
  let pats := p.nodes.drop 1
  let terminals := (List.range pats.length).filterMap fun pos =>
    if (pats.getD pos zeroNode).value.isSome then some (pos + 2 + base) else none
  let clones := pats.map fun nd =>
    { transitions := fun k => if nd.transitions k = 0 then 0 else nd.transitions k + base,
      value := (none : Option Nat) }
  ({ B with nodes := B.nodes ++ clones }, { base := base, terminals := terminals })

/-- The two call shapes of the `make_nonambiguous_link` recursion: a link call
proper, and the copy-in loop over the snapshot of the target's transitions. -/
inductive LinkCall where
  | link (ns : List Node) (frm : Nat) (key : Nat) (toN : Nat) (watch : List Nat)
  | loop (nidx : Nat) (currentTarget : Nat) (toN : Nat) (watch : List Nat)
      (snap : List (Nat × Nat)) (ns : List Node) (tracked : List Nat)

/-- Code side, `make_nonambiguous_link` (state_machine_internal/builder.h:
796-920): install `from --key--> to` without disturbing the pre-existing
transition; on a conflict, clone the current destination into a merge node,
fix self-references, track the clone when `to` or the old destination is
watched, propagate `to`'s accepting value under the conflict action (error
aborts), then walk the snapshot of `to`'s transitions resolving each slot
(the three self-reference cases) or recursing; finally point `from` at the
clone.  The C++ recursion carries no termination device; the model spends one
unit of fuel per call and with enough fuel agrees with every terminating C++
run. -/
def mnaRun (policy : ConflictAction) : Nat → LinkCall → Except String (List Node × List Nat)
  | 0, LinkCall.link ns _ _ _ _ => Except.ok (ns, [])
  | 0, LinkCall.loop _ _ _ _ _ ns tracked => Except.ok (ns, tracked)
  | fuel + 1, LinkCall.link ns frm key toN watch =>
    let currentTarget := (getN ns frm).transitions key
    if currentTarget = 0 then Except.ok (setT ns frm key toN, [])
    else if currentTarget = toN then Except.ok (ns, [])
    else
      let nidx := ns.length + 1
      let c0 := getN ns currentTarget
      let c1 : Node :=
        { transitions := fun k =>
            if c0.transitions k = currentTarget then nidx else c0.transitions k,
          value := c0.value }
      let tracked0 : List Nat := if toN ∈ watch ∨ currentTarget ∈ watch then [nidx] else []
      let propagated : Option Node :=
        match (getN ns toN).value with
        | some tv =>
          match c1.value with
          | some _ =>
            match policy with
            | ConflictAction.error => none
            | ConflictAction.skip => some c1
            | ConflictAction.overwrite => some { c1 with value := some tv }
          | none => some { c1 with value := some tv }
        | none => some c1
      match propagated with
      | none => Except.error "conflicting values while making nonambiguous transition"
      | some c2 =>
        let ns1 := ns ++ [c2]
        let snap := transPairs (getN ns1 toN)
        match mnaRun policy fuel (LinkCall.loop nidx currentTarget toN watch snap ns1 tracked0) with
        | Except.error e => Except.error e
        | Except.ok r => Except.ok (setT r.1 frm key nidx, r.2)
  | _ + 1, LinkCall.loop _ _ _ _ [] ns tracked => Except.ok (ns, tracked)
  | fuel + 1, LinkCall.loop nidx currentTarget toN watch ((k, ref) :: rest) ns tracked =>
    let nt := (getN ns nidx).transitions k
    if nt = nidx ∧ ref = 0 then
      mnaRun policy fuel
        (LinkCall.loop nidx currentTarget toN watch rest (setT ns nidx k currentTarget) tracked)
    else if ref = toN ∧ nt = 0 then
      mnaRun policy fuel
        (LinkCall.loop nidx currentTarget toN watch rest (setT ns nidx k currentTarget) tracked)
    else if ref = toN ∧ nt = nidx then
      mnaRun policy fuel (LinkCall.loop nidx currentTarget toN watch rest ns tracked)
    else if ref = 0 then
      mnaRun policy fuel (LinkCall.loop nidx currentTarget toN watch rest ns tracked)
    else
      match mnaRun policy fuel (LinkCall.link ns nidx k ref watch) with
      | Except.error e => Except.error e
      | Except.ok r =>
        mnaRun policy fuel
          (LinkCall.loop nidx currentTarget toN watch rest r.1 (tracked ++ r.2))

/-- `make_nonambiguous_link` proper. -/
def makeNALink (policy : ConflictAction) (fuel : Nat) (ns : List Node)
    (frm key toN : Nat) (watch : List Nat) : Except String (List Node × List Nat) :=
  mnaRun policy fuel (LinkCall.link ns frm key toN watch)

/-- Run `make_nonambiguous_link` with an empty watch list from every source in
`sources` for every (key, destination) root pair, as the two installation
passes of `match_many_optionally` do; only the node store is threaded and the
returned tracking lists are discarded, exactly as in the source. -/
def linkAll (policy : ConflictAction) (fuel : Nat) (pairs : List (Nat × Nat)) (base : Nat)
    (sources : List Nat) (ns : List Node) : Except String (List Node) :=
  pairs.foldlM
    (fun nsAcc kv =>
      sources.foldlM
        (fun nsAcc2 src =>
          match makeNALink policy fuel nsAcc2 src kv.1 (kv.2 + base) [] with
          | Except.error e => Except.error e
          | Except.ok r => Except.ok r.1)
        nsAcc)
    ns

/-- Code side, `match_many_optionally` (state_machine_internal/builder.h:
255-295): clone the pattern body, install the cycle links (every sub-terminal
gets the pattern root's transitions, mapped), install the entry links (every
pre-existing cursor likewise), then set the cursor list to the pre-existing
cursors followed by the sub-terminals. -/
def matchManyOptionally (fuel : Nat) (B p : Builder) : Except String Builder :=
  let cursorsBefore := B.cursors
  let br := consumeRegexExceptRoot B p
  let rootPairs := transPairs (getN p.nodes 1)
  match linkAll B.onConflict fuel rootPairs br.2.base br.2.terminals br.1.nodes with
  | Except.error e => Except.error e
  | Except.ok ns2 =>
    match linkAll B.onConflict fuel rootPairs br.2.base cursorsBefore ns2 with
    | Except.error e => Except.error e
    | Except.ok ns3 =>
      Except.ok
        { nodes := ns3, cursors := cursorsBefore ++ br.2.terminals,
          onConflict := B.onConflict }

/-- `is_deletable_node` (state_machine_internal/builder.h:712-724): not the
root, null, and not holding a cursor. -/
def isDeletable (ns : List Node) (cursors : List Nat) (idx : Nat) : Bool :=
  decide (idx ≠ 1) && isNullN (getN ns idx) && !(cursors.contains idx)

/-- One node's rewrite in `nullify_nullrefs`: every nonzero transition aimed at
a node currently marked null becomes 0. -/
def nnrRewrite (nulls : List Bool) (nd : Node) : Node :=
  { nd with
    transitions := fun k =>
      let v := nd.transitions k
      if v ≠ 0 ∧ nulls.getD (v - 1) false then 0 else v }

/-- One sweep of the `nullify_nullrefs` loop (state_machine_internal/builder.h:
422-444): skip nodes already marked; rewrite the rest; re-evaluate deletability
and mark. -/
def nnrPass (cursors : List Nat) (ns0 : List Node) (nulls0 : List Bool) :
    List Node × List Bool × Bool :=
  (List.range ns0.length).foldl
    (fun (acc : List Node × List Bool × Bool) pos =>
      if acc.2.1.getD pos false then acc
      else
        let nd := nnrRewrite acc.2.1 (acc.1.getD pos zeroNode)
        let ns1 := acc.1.set pos nd
        if isDeletable ns1 cursors (pos + 1) then (ns1, acc.2.1.set pos true, true)
        else (ns1, acc.2.1, acc.2.2))
    (ns0, nulls0, false)

/-- The `nullify_nullrefs` fixpoint loop; each productive sweep marks at least
one further node, so `len + 1` units of fuel reach the C++ fixpoint. -/
def nnrLoop (cursors : List Nat) : Nat → List Node → List Bool → List Node
  | 0, ns, _ => ns
  | fuel + 1, ns, nulls =>
    let r := nnrPass cursors ns nulls
    if r.2.2 then nnrLoop cursors fuel r.1 r.2.1 else r.1

/-- Code side, `nullify_nullrefs` (state_machine_internal/builder.h:410-445). -/
def nullifyNullrefs (B : Builder) : Builder :=
  let nulls0 := (List.range B.nodes.length).map fun i => isDeletable B.nodes B.cursors (i + 1)
  { B with nodes := nnrLoop B.cursors (B.nodes.length + 1) B.nodes nulls0 }

/-- The duplicate test of the internal `remove_duplicates_once`
(state_machine_internal/builder.h:474-514): skip pure nulls, require equal
cursor membership and equal accepting value, then compare the transition slots
that `node` actually has (a slot where both nodes refer to themselves counts
as equal). -/
def smiNodeMatch (cb : List Bool) (node other : Node) (nodeIdx otherIdx : Nat) : Bool :=
  if isNullN other && !(cb.getD (otherIdx - 1) false) then false
  else if cb.getD (otherIdx - 1) false != cb.getD (nodeIdx - 1) false then false
  else if decide (node.value ≠ other.value) then false
  else
    (keysOf node).all fun k =>
      let nt := node.transitions k
      let ot := other.transitions k
      (decide (nt = nodeIdx) && decide (ot = otherIdx)) || decide (nt = ot)

/-- One `noderef` step of the internal `remove_duplicates_once` at store
position `pos`: collect all matching earlier non-root nodes, then redirect
every edge aimed at each of them to this node, nullify them and clear their
cursor bit. -/
def smiFuseAt (ns : List Node) (cb : List Bool) (pos : Nat) :
    List Node × List Bool × Bool :=
  let node := ns.getD pos zeroNode
  let nodeIdx := pos + 1
  if isNullN node && !(cb.getD pos false) then (ns, cb, false)
  else
    let matchers := (List.range pos).filterMap fun j =>
      if j = 0 then none
      else if smiNodeMatch cb node (ns.getD j zeroNode) nodeIdx (j + 1) then some (j + 1)
      else none
    if matchers.isEmpty then (ns, cb, false)
    else
      let fused := matchers.foldl
        (fun (acc : List Node × List Bool) oldIdx =>
          let ns1 := acc.1.map fun nd =>
            { nd with
              transitions := fun k =>
                if nd.transitions k = oldIdx then nodeIdx else nd.transitions k }
          (ns1.set (oldIdx - 1) zeroNode, acc.2.set (oldIdx - 1) false))
        (ns, cb)
      (fused.1, fused.2, true)

/-- One full backward sweep of the internal `remove_duplicates_once`
(positions `len-1, ..., 1`). -/
def smiDupPass (ns0 : List Node) (cb0 : List Bool) : List Node × List Bool × Bool :=
  (((List.range ns0.length).drop 1).reverse).foldl
    (fun acc pos =>
      let r := smiFuseAt acc.1 acc.2.1 pos
      (r.1, r.2.1, acc.2.2 || r.2.2))
    (ns0, cb0, false)

/-- `remove_duplicates_once` (state_machine_internal/builder.h:453-546): build
the cursor bit-vector, sweep, then rebuild the cursor list from the bit-vector
(in ascending handle order). -/
def smiDupOnce (B : Builder) : Builder × Bool :=
  let cb0 := (List.range B.nodes.length).map fun i => B.cursors.contains (i + 1)
  let r := smiDupPass B.nodes cb0
  let newCursors := (List.range B.nodes.length).filterMap fun i =>
    if r.2.1.getD i false then some (i + 1) else none
  ({ B with nodes := r.1, cursors := newCursors }, r.2.2)

/-- `remove_duplicates`: repeat until no fusion; each fusing pass nullifies at
least one non-null node, so `len + 1` units of fuel reach the C++ fixpoint. -/
def smiRemoveDups : Nat → Builder → Builder
  | 0, B => B
  | fuel + 1, B =>
    let r := smiDupOnce B
    if r.2 then smiRemoveDups fuel r.1 else r.1

/-- One expansion sweep of the reachability loop in `nullify_orphans`
(state_machine_internal/builder.h:555-572); note the transitions use the
corrected 0-based index `t - 1`. -/
def orphanPass (ns : List Node) (reach0 : List Bool) : List Bool × Bool :=
  (List.range ns.length).foldl
    (fun (acc : List Bool × Bool) pos =>
      if acc.1.getD pos false then
        (transPairs (ns.getD pos zeroNode)).foldl
          (fun (acc2 : List Bool × Bool) kv =>
            if acc2.1.getD (kv.2 - 1) false then acc2
            else (acc2.1.set (kv.2 - 1) true, true))
          acc
      else acc)
    (reach0, false)

/-- The reachability fixpoint of `nullify_orphans`. -/
def orphanReach : Nat → List Node → List Bool → List Bool
  | 0, _, reach => reach
  | fuel + 1, ns, reach =>
    let r := orphanPass ns reach
    if r.2 then orphanReach fuel ns r.1 else r.1

/-- Code side, `nullify_orphans` (state_machine_internal/builder.h:551-593):
compute reachability from the root; zero out cursors whose test
`reachables[c]` fails — the code indexes the 0-based vector with the 1-based
cursor handle, so it actually consults the slot of node `c + 1` — nullify
unreachable nodes, and drop the zeroed cursors. -/
def nullifyOrphans (B : Builder) : Builder :=
  let reach0 := (List.range B.nodes.length).map fun i => i == 0
  let reach := orphanReach (B.nodes.length + 1) B.nodes reach0
  let cursors1 := B.cursors.map fun c => if !(reach.getD c false) then 0 else c
  let ns1 := (List.range B.nodes.length).map fun i =>
    if reach.getD i false then B.nodes.getD i zeroNode else zeroNode
  { B with nodes := ns1, cursors := cursors1.filter fun c => c ≠ 0 }

/-- The keep-scan of the internal `remove_blanks` (state_machine_internal/
builder.h:595-632): keep the root, non-null nodes, and null nodes for which
`has_cursor(idx)` holds — where `idx` is the running counter of the next new
handle, exactly as in the source; record the handle remapping. -/
def smiBlanksScan (B : Builder) : List Node × List Nat :=
  let r := (List.range B.nodes.length).foldl
    (fun (acc : List Node × List Nat × Nat) pos =>
      let nd := B.nodes.getD pos zeroNode
      if isNullN nd && decide (pos ≠ 0) && !(B.cursors.contains acc.2.2) then acc
      else (acc.1 ++ [nd], acc.2.1.set pos acc.2.2, acc.2.2 + 1))
    ([], (List.replicate B.nodes.length 0).set 0 1, 1)
  (r.1, r.2.1)

/-- Code side, `remove_blanks` (internal): compact the store, rewrite every
nonzero transition and every cursor through the remapping. -/
def smiRemoveBlanks (B : Builder) : Builder :=
  let scan := smiBlanksScan B
  let ns1 := scan.1.map fun nd =>
    { nd with
      transitions := fun k =>
        let t := nd.transitions k
        if t = 0 then 0 else scan.2.getD (t - 1) 0 }
  { B with nodes := ns1, cursors := B.cursors.map fun c => scan.2.getD (c - 1) 0 }

/-- Code side, `internal::StateMachine::optimize` (state_machine_internal/
builder.h:389-401): `nullify_nullrefs`, `remove_duplicates`,
`nullify_nullrefs`, `remove_duplicates`, `nullify_orphans`, `remove_blanks`.
The final statement `construction_state.cursors = {1};` is commented out in
the source, so no cursor reset happens. -/
def smiOptimize (B : Builder) : Builder :=
  let b1 := nullifyNullrefs B
  let b2 := smiRemoveDups (b1.nodes.length + 1) b1
  let b3 := nullifyNullrefs b2
  let b4 := smiRemoveDups (b3.nodes.length + 1) b3
  smiRemoveBlanks (nullifyOrphans b4)

/-- A fresh builder: one root node, cursor at the root. -/
def builderFresh : Builder :=
  { nodes := [zeroNode], cursors := [1], onConflict := ConflictAction.error }

/-- A builder mid-construction: root --a--> 2 --b--> 3 with an accepting value
on node 3 and the cursor on node 2 (as after
`match_sequence "ab"; exit_point; root; match_sequence "a"`). -/
def builderAB : Builder :=
  { nodes :=
      [ { transitions := RB.trOf [(97, 2)], value := none },
        { transitions := RB.trOf [(98, 3)], value := none },
        { transitions := RB.trOf [], value := some 0 } ],
    cursors := [2], onConflict := ConflictAction.error }

/-- A builder with two behaviorally equal accepting nodes 2 and 4, a cursor on
node 2, and an unreachable self-looping node 3. -/
def builderDupPair : Builder :=
  { nodes :=
      [ { transitions := RB.trOf [(97, 2), (98, 4)], value := none },
        { transitions := RB.trOf [], value := some 0 },
        { transitions := RB.trOf [(99, 3)], value := none },
        { transitions := RB.trOf [], value := some 0 } ],
    cursors := [2], onConflict := ConflictAction.error }

/-- A skip-policy builder whose only cursor (the root) already has a default
transition, aimed at node 2. -/
def builderDefSkip : Builder :=
  { nodes :=
      [ { transitions := RB.trOf [(129, 2)], value := none },
        { transitions := RB.trOf [], value := none } ],
    cursors := [1], onConflict := ConflictAction.skip }

/-- The host for the Kleene counterexample: root --a--> 2, cursor at the root
(as after `match_sequence "a"; root`). -/
def hostA : Builder :=
  { nodes := [ { transitions := RB.trOf [(97, 2)], value := none }, zeroNode ],
    cursors := [1], onConflict := ConflictAction.error }

/-- The pattern `a`: root --a--> 2 with node 2 accepting. -/
def patternA : Builder :=
  { nodes :=
      [ { transitions := RB.trOf [(97, 2)], value := none },
        { transitions := RB.trOf [], value := some 0 } ],
    cursors := [2], onConflict := ConflictAction.error }

/-- The `ok` result of the Kleene counterexample run (see the C6 theorems). -/
def kleeneRun : Builder :=
  match matchManyOptionally 10 hostA patternA with
  | Except.ok b => b
  | Except.error _ => builderFresh

end SMI

namespace NV

/-- `Node_Value<T>` (state_machine_internal/node.h:40-51): a user payload plus
the `back_by` count. -/
structure NodeValue (T : Type) where
  value : T
  back_by : Nat

/-- Code side, `Node_Value<T>::operator==`: both the counts and the payloads
are equal. -/
def nvEq {T : Type} [DecidableEq T] (a b : NodeValue T) : Bool :=
  decide (a.back_by = b.back_by) && decide (a.value = b.value)

/-- Code side, `Node_Value<T>::operator!=`: the source conjoins the two
disequalities (`back_by != other.back_by && value != other.value`). -/
def nvNe {T : Type} [DecidableEq T] (a b : NodeValue T) : Bool :=
  decide (a.back_by ≠ b.back_by) && decide (a.value ≠ b.value)

end NV

theorem rb_matchesFromStr_eq_walk {V : Type} (M : RB.Machine V) :
    ∀ (s : List Nat) (n : Nat),
      RB.matchesFromStr M n s = (RB.walkFrom M n s).bind fun m => (RB.getNode M m).value := by
  intro s
  induction s with
  | nil => intro n; rfl
  | cons c rest ih =>
    intro n
    show (if (RB.getNode M n).transitions c = 0 then none
          else RB.matchesFromStr M ((RB.getNode M n).transitions c) rest) = _
    by_cases h : (RB.getNode M n).transitions c = 0
    · simp [RB.walkFrom, h]
    · simp [RB.walkFrom, h, ih]

theorem rb_matchesFileGo_eq_walk {V : Type} (M : RB.Machine V) :
    ∀ (s : List Nat) (n : Nat),
      RB.matchesFileGo M n s =
        (RB.walkFrom M n (s ++ [RB.eofKey])).bind fun m => (RB.getNode M m).value := by
  intro s
  induction s with
  | nil =>
    intro n
    show (if (RB.getNode M n).transitions RB.eofKey = 0 then none
          else (RB.getNode M ((RB.getNode M n).transitions RB.eofKey)).value) = _
    by_cases h : (RB.getNode M n).transitions RB.eofKey = 0
    · simp [RB.walkFrom, h]
    · simp [RB.walkFrom, h]
  | cons c rest ih =>
    intro n
    show (if (RB.getNode M n).transitions c = 0 then none
          else RB.matchesFileGo M ((RB.getNode M n).transitions c) rest) = _
    by_cases h : (RB.getNode M n).transitions c = 0
    · simp [RB.walkFrom, h]
    · simp [RB.walkFrom, h, ih]

/-- C1: For every constructed machine and every input string, full match walks
from the root consuming one symbol per step and fails as soon as a 0
destination is met; in string mode the input matches iff the node reached after
the last symbol is accepting (returning that node's payload for valued
machines, a boolean — modelled by `Option.isSome` — for pure machines), and in
file mode one additional EOF transition is taken after the last symbol and the
input matches iff the post-EOF node is accepting. -/
theorem c1_full_match_is_root_walk (V : Type) (M : RB.Machine V) (s : List Nat) :
    RB.matchesStr M s = RB.acceptVal M s
    ∧ RB.matchesFile M s = RB.acceptVal M (s ++ [RB.eofKey])
    ∧ ((RB.matchesStr M s).isSome ↔
        ∃ n, RB.walkRoot M s = some n ∧ (RB.getNode M n).value.isSome) := by
  have h1 : RB.matchesStr M s = RB.acceptVal M s := rb_matchesFromStr_eq_walk M s 1
  refine ⟨h1, rb_matchesFileGo_eq_walk M s 1, ?_⟩
  rw [h1]
  unfold RB.acceptVal
  cases h : RB.walkRoot M s with
  | none => simp
  | some n =>
    simp only [Option.some_bind]
    constructor
    · intro hv
      exact ⟨n, rfl, hv⟩
    · rintro ⟨m, hm, hv⟩
      cases hm
      exact hv

theorem rb_acceptsFrom_zero {V : Type} (M : RB.Machine V) (n : Nat) (s : List Nat) :
    RB.acceptsFrom M n s 0 = (RB.getNode M n).value.isSome := by
  simp [RB.acceptsFrom, RB.walkFrom]

theorem rb_acceptsFrom_succ_cons {V : Type} (M : RB.Machine V) (n c k : Nat) (rest : List Nat) :
    RB.acceptsFrom M n (c :: rest) (k + 1) =
      (if (RB.getNode M n).transitions c = 0 then false
       else RB.acceptsFrom M ((RB.getNode M n).transitions c) rest k) := by
  by_cases h : (RB.getNode M n).transitions c = 0
  · simp [RB.acceptsFrom, List.take_succ_cons, RB.walkFrom, h]
  · simp [RB.acceptsFrom, List.take_succ_cons, RB.walkFrom, h]

theorem rb_payloadFrom_succ_cons {V : Type} (M : RB.Machine V) (n c k : Nat) (rest : List Nat) :
    RB.payloadFrom M n (c :: rest) (k + 1) =
      (if (RB.getNode M n).transitions c = 0 then none
       else RB.payloadFrom M ((RB.getNode M n).transitions c) rest k) := by
  by_cases h : (RB.getNode M n).transitions c = 0
  · simp [RB.payloadFrom, List.take_succ_cons, RB.walkFrom, h]
  · simp [RB.payloadFrom, List.take_succ_cons, RB.walkFrom, h]

theorem rb_lookupFrom_eq_longest {V : Type} (M : RB.Machine V) :
    ∀ (s : List Nat) (n i : Nat) (best : Option (Nat × V)),
      RB.lookupFrom M n i best s =
        (match RB.longestAccept M n s with
         | some (j, v) => some (i + j, v)
         | none => best) := by
  intro s
  induction s with
  | nil => intro n i best; rfl
  | cons c rest ih =>
    intro n i best
    show (if (RB.getNode M n).transitions c = 0 then best else _) = _
    by_cases h : (RB.getNode M n).transitions c = 0
    · simp [RB.longestAccept, h]
    · simp only [h, if_false]
      rw [ih]
      cases hla : RB.longestAccept M ((RB.getNode M n).transitions c) rest with
      | some jv =>
        obtain ⟨j, v⟩ := jv
        simp [RB.longestAccept, h, hla]
        omega
      | none =>
        cases hv : (RB.getNode M ((RB.getNode M n).transitions c)).value with
        | some v => simp [RB.longestAccept, h, hla, hv]
        | none => simp [RB.longestAccept, h, hla, hv]

theorem rb_longest_some_sound {V : Type} (M : RB.Machine V) :
    ∀ (s : List Nat) (n j : Nat) (v : V),
      RB.longestAccept M n s = some (j, v) →
      j < s.length ∧ RB.payloadFrom M n s (j + 1) = some v := by
  intro s
  induction s with
  | nil => intro n j v h; exact absurd h (by simp [RB.longestAccept])
  | cons c rest ih =>
    intro n j v h
    rw [RB.longestAccept] at h
    by_cases ht : (RB.getNode M n).transitions c = 0
    · simp [ht] at h
    · simp only [ht, if_false] at h
      cases hla : RB.longestAccept M ((RB.getNode M n).transitions c) rest with
      | some jv =>
        obtain ⟨j0, v0⟩ := jv
        rw [hla] at h
        simp only [Option.some.injEq, Prod.mk.injEq] at h
        obtain ⟨hj, hv⟩ := h
        obtain ⟨hlt, hpay⟩ := ih _ _ _ hla
        subst hj hv
        refine ⟨by simpa using Nat.succ_lt_succ hlt, ?_⟩
        rw [rb_payloadFrom_succ_cons, if_neg ht]
        exact hpay
      | none =>
        rw [hla] at h
        cases hv : (RB.getNode M ((RB.getNode M n).transitions c)).value with
        | some v0 =>
          rw [hv] at h
          simp only [Option.some.injEq, Prod.mk.injEq] at h
          obtain ⟨hj, hveq⟩ := h
          subst hj
          refine ⟨by simp, ?_⟩
          rw [rb_payloadFrom_succ_cons, if_neg ht]
          simp [RB.payloadFrom, RB.walkFrom, hv, hveq]
        | none => rw [hv] at h; exact absurd h (by simp)

theorem rb_longest_none_complete {V : Type} (M : RB.Machine V) :
    ∀ (s : List Nat) (n : Nat),
      RB.longestAccept M n s = none →
      ∀ k, 1 ≤ k → k ≤ s.length → RB.acceptsFrom M n s k = false := by
  intro s
  induction s with
  | nil => intro n _ k h1 h2; simp at h2; omega
  | cons c rest ih =>
    intro n h k h1 h2
    rw [RB.longestAccept] at h
    obtain ⟨k0, rfl⟩ : ∃ k0, k = k0 + 1 := ⟨k - 1, by omega⟩
    rw [rb_acceptsFrom_succ_cons]
    by_cases ht : (RB.getNode M n).transitions c = 0
    · simp [ht]
    · simp only [ht, if_false] at h ⊢
      cases hla : RB.longestAccept M ((RB.getNode M n).transitions c) rest with
      | some jv => obtain ⟨j0, v0⟩ := jv; rw [hla] at h; exact absurd h (by simp)
      | none =>
        rw [hla] at h
        cases hv : (RB.getNode M ((RB.getNode M n).transitions c)).value with
        | some v0 => rw [hv] at h; exact absurd h (by simp)
        | none =>
          cases k0 with
          | zero => simp [rb_acceptsFrom_zero, hv]
          | succ k1 =>
            exact ih _ hla (k1 + 1) (by omega) (by simpa using Nat.lt_succ_iff.mp h2)

theorem rb_longest_some_maximal {V : Type} (M : RB.Machine V) :
    ∀ (s : List Nat) (n j : Nat) (v : V),
      RB.longestAccept M n s = some (j, v) →
      ∀ k, j + 1 < k → k ≤ s.length → RB.acceptsFrom M n s k = false := by
  intro s
  induction s with
  | nil => intro n j v h; exact absurd h (by simp [RB.longestAccept])
  | cons c rest ih =>
    intro n j v h k hk1 hk2
    rw [RB.longestAccept] at h
    by_cases ht : (RB.getNode M n).transitions c = 0
    · simp [ht] at h
    · simp only [ht, if_false] at h
      obtain ⟨k0, rfl⟩ : ∃ k0, k = k0 + 1 := ⟨k - 1, by omega⟩
      rw [rb_acceptsFrom_succ_cons, if_neg ht]
      cases hla : RB.longestAccept M ((RB.getNode M n).transitions c) rest with
      | some jv =>
        obtain ⟨j0, v0⟩ := jv
        rw [hla] at h
        simp only [Option.some.injEq, Prod.mk.injEq] at h
        obtain ⟨hj, _⟩ := h
        subst hj
        exact ih _ _ _ hla k0 (by omega) (by simpa using Nat.lt_succ_iff.mp hk2)
      | none =>
        rw [hla] at h
        cases hv : (RB.getNode M ((RB.getNode M n).transitions c)).value with
        | some v0 =>
          rw [hv] at h
          simp only [Option.some.injEq, Prod.mk.injEq] at h
          obtain ⟨hj, _⟩ := h
          subst hj
          exact rb_longest_none_complete M rest _ hla k0 (by omega)
            (by simpa using Nat.lt_succ_iff.mp hk2)
        | none => rw [hv] at h; exact absurd h (by simp)

/-- C4 counterexample: on a machine whose root is accepting (so that the empty
prefix — position 0 — is a position "where the machine is accepting"), `lookup`
returns the miss sentinel rather than the argmax over all accepting positions:
the claim, as stated, fails at this input. -/
theorem c4_lookup_misses_accepting_root :
    RB.lookupStart RB.machineRootAccepting [97] = none
    ∧ RB.acceptsAt RB.machineRootAccepting [97] 0 = true := by
  constructor
  · rfl
  · rfl

/-- C4 (amended): for every machine and input, prefix-lookup walks from the
root remembering each accepting node entered by a transition as best-so-far,
stops when no further transition exists, and returns the position and payload
of the longest accepting prefix among the prefixes of length at least 1 — the
argmax over positions `k ≥ 1` at which the machine is accepting — or the miss
sentinel when no such nonempty prefix is accepting (an accepting root, i.e. an
accepting empty prefix, is never reported). -/
theorem c4_lookup_longest_nonempty_accepting_prefix (V : Type) (M : RB.Machine V)
    (s : List Nat) :
    (match RB.lookupStart M s with
     | some (p, v) =>
         p < s.length
         ∧ RB.payloadAt M s (p + 1) = some v
         ∧ ∀ k, p + 1 < k → k ≤ s.length → RB.acceptsAt M s k = false
     | none => ∀ k, 1 ≤ k → k ≤ s.length → RB.acceptsAt M s k = false) := by
  have heq : RB.lookupStart M s = RB.longestAccept M 1 s := by
    rw [RB.lookupStart, rb_lookupFrom_eq_longest]
    cases h : RB.longestAccept M 1 s with
    | none => rfl
    | some jv => obtain ⟨j, v⟩ := jv; simp
  rw [heq]
  cases h : RB.longestAccept M 1 s with
  | none =>
    intro k h1 h2
    exact rb_longest_none_complete M s 1 h k h1 h2
  | some jv =>
    obtain ⟨j, v⟩ := jv
    obtain ⟨hlt, hpay⟩ := rb_longest_some_sound M s 1 j v h
    exact ⟨hlt, hpay, fun k hk1 hk2 => rb_longest_some_maximal M s 1 j v h k hk1 hk2⟩

/-- C3: evaluation of `find_many` on the machine accepting "ab" and "ba" with
input "aba": the code returns the matches [0,1] and [1,2] — the second anchor
starts at position 1, which is the end position of the first match, because
`find_many` sets `cur = result.end` instead of advancing past it; the two
matches overlap at position 1, contradicting the claim that matches are
non-overlapping with the anchor advanced past each match's end. -/
theorem c3_find_many_returns_overlapping_matches :
    RB.findManyStart RB.machineAbBa [97, 98, 97] = [(0, 1, ()), (1, 2, ())] := by
  rfl

/-- C2: evaluation of `optimize` at the minimal DFA of `a(aa)*` and input "a".
Before optimization the machine accepts "a"; `remove_duplicates_once` searches
for a duplicate of node 3 starting at `_m_nodes.begin()` — which is the root —
finds the root equal to node 3, redirects edges and nullifies the root, and
`matches` (which always starts at handle 1) subsequently rejects "a": the
optimized machine no longer accepts the same language. -/
theorem c2_optimize_changes_full_match :
    (RB.matchesStr RB.machineOddAs [97]).isSome = true
    ∧ (RB.matchesStr (RB.rbOptimize RB.machineOddAs) [97]).isSome = false := by
  exact ⟨rfl, rfl⟩

/-- C10: at the pair of node values (payload 1, back_by 0) and
(payload 2, back_by 0), `operator==` is false (the payloads differ) yet
`operator!=` is also false (it requires the `back_by` counts to differ as
well, since it conjoins the two disequalities): `!=` is not the logical
negation of `==`. -/
theorem c10_neq_not_negation_of_eq :
    NV.nvEq (NV.NodeValue.mk 1 0) (NV.NodeValue.mk 2 0) = false
    ∧ NV.nvNe (NV.NodeValue.mk 1 0) (NV.NodeValue.mk 2 0) = false := by
  exact ⟨rfl, rfl⟩

/-- C8: evaluation of the internal `optimize` at a builder whose cursor sits on
node 2 (root --a--> 2 --b--> 3 with node 3 accepting): after `optimize()` the
cursor set is still `[2]`, not the singleton `{root}` — the reset statement is
commented out in the source and the passes preserve the cursor. -/
theorem c8_optimize_does_not_reset_cursors :
    (SMI.smiOptimize SMI.builderAB).cursors = [2]
    ∧ (SMI.smiOptimize SMI.builderAB).cursors ≠ [1] := by
  exact ⟨rfl, by decide⟩

/-- C9: evaluation of the internal `optimize` twice at a 4-node builder (two
behaviorally equal accepting nodes 2 and 4, cursor on node 2, unreachable node
3).  The first run drops the live cursor on node 2 — `nullify_orphans` tests
`reachables[c]` with the 1-based handle against the 0-based vector, consulting
node 3's slot — and keeps 3 nodes; with the cursor gone, the second run fuses
nodes 2 and 4 and keeps only 2 nodes: the two results differ structurally, so
`optimize` is not idempotent. -/
theorem c9_optimize_not_idempotent :
    (SMI.smiOptimize SMI.builderDupPair).nodes.length = 3
    ∧ (SMI.smiOptimize (SMI.smiOptimize SMI.builderDupPair)).nodes.length = 2 := by
  exact ⟨rfl, rfl⟩

/-- C7 counterexample: a skip-policy builder whose single cursor (the root)
already has a default transition to node 2.  `match_default` allocates node 3
and returns the cursor set `[3, 2]` — the fresh node plus the pre-existing
default — not the singleton `{fresh_node}` the claim states for every conflict
policy. -/
theorem c7_match_default_skip_keeps_old_default :
    SMI.matchDefault SMI.builderDefSkip =
      Except.ok
        { nodes := SMI.builderDefSkip.nodes ++ [SMI.zeroNode],
          cursors := [3, 2], onConflict := SMI.ConflictAction.skip }
    ∧ [3, 2] ≠ [3] := by
  constructor
  · rfl
  · decide

/-- C5 counterexample: from a fresh builder, `match_any_of {a, b}` — both
transitions initially absent — produces root --a--> 3 and root --b--> 4 with
two distinct fresh destination nodes (plus the unused node 2 allocated at
entry) and cursor set `[3, 4]`: a single fresh destination node is not shared
across the initially-absent transitions, and the alternation does not collapse
to one state. -/
theorem c5_match_any_of_one_node_per_choice :
    (SMI.matchAnyOf SMI.builderFresh [97, 98]).cursors = [3, 4]
    ∧ (SMI.getN (SMI.matchAnyOf SMI.builderFresh [97, 98]).nodes 1).transitions 97 = 3
    ∧ (SMI.getN (SMI.matchAnyOf SMI.builderFresh [97, 98]).nodes 1).transitions 98 = 4
    ∧ (SMI.matchAnyOf SMI.builderFresh [97, 98]).nodes.length = 4 := by
  exact ⟨rfl, rfl, rfl, rfl⟩

/-- C6 counterexample: `match_many_optionally` of the pattern `a` on a host
with root --a--> 2 and cursor at the root.  The sub-terminal list is `[3]`;
installing the entry link root --a--> 3 conflicts with the pre-existing
root --a--> 2, so a replacement clone, node 4, is created and becomes the
root's `a` destination in place of the watched sub-terminal 3 — yet the final
cursor set is `[1, 3]`: the replacement clone is not added (the calls pass an
empty watch list), contradicting the claimed
`cursors_before ∪ T ∪ replacement clones`. -/
theorem c6_kleene_cursors_miss_replacement_clone :
    SMI.matchManyOptionally 10 SMI.hostA SMI.patternA = Except.ok SMI.kleeneRun
    ∧ SMI.kleeneRun.cursors = [1, 3]
    ∧ (SMI.consumeRegexExceptRoot SMI.hostA SMI.patternA).2.terminals = [3]
    ∧ SMI.kleeneRun.nodes.length = 4
    ∧ (SMI.getN SMI.kleeneRun.nodes 1).transitions 97 = 4
    ∧ ¬ (4 ∈ SMI.kleeneRun.cursors) := by
  refine ⟨rfl, rfl, rfl, rfl, rfl, by decide⟩

theorem smi_getD_set_ne {α : Type} (l : List α) (i j : Nat) (a d : α) (hne : i ≠ j) :
    (l.set i a).getD j d = l.getD j d := by
  simp only [List.getD_eq_getElem?_getD]
  rw [List.getElem?_set_ne hne]

theorem smi_getD_set_self {α : Type} (l : List α) (i : Nat) (a d : α) (h : i < l.length) :
    (l.set i a).getD i d = a := by
  simp only [List.getD_eq_getElem?_getD]
  rw [List.getElem?_set_eq_of_lt a h]
  rfl

theorem smi_setT_length (ns : List SMI.Node) (h key dst : Nat) :
    (SMI.setT ns h key dst).length = ns.length := by
  simp [SMI.setT]

theorem smi_getN_setT_ne (ns : List SMI.Node) (h h2 key dst : Nat)
    (hp : 1 ≤ h) (hp2 : 1 ≤ h2) (hne : h2 ≠ h) :
    SMI.getN (SMI.setT ns h key dst) h2 = SMI.getN ns h2 := by
  unfold SMI.getN SMI.setT
  exact smi_getD_set_ne _ _ _ _ _ (by omega)

theorem smi_getN_setT_self (ns : List SMI.Node) (h key dst : Nat)
    (hp : 1 ≤ h) (hle : h ≤ ns.length) :
    SMI.getN (SMI.setT ns h key dst) h =
      { transitions := fun k => if k = key then dst else (SMI.getN ns h).transitions k,
        value := (SMI.getN ns h).value } := by
  unfold SMI.getN SMI.setT
  rw [smi_getD_set_self _ _ _ _ (by omega)]
  rfl

theorem smi_getN_append (ns l : List SMI.Node) (h : Nat)
    (hp : 1 ≤ h) (hle : h ≤ ns.length) :
    SMI.getN (ns ++ l) h = SMI.getN ns h := by
  unfold SMI.getN
  exact List.getD_append _ _ _ _ (by omega)

theorem smi_getN_append_fresh (ns : List SMI.Node) (nd : SMI.Node) :
    SMI.getN (ns ++ [nd]) (ns.length + 1) = nd := by
  unfold SMI.getN
  rw [List.getD_append_right _ _ _ _ (by omega)]
  simp

theorem smi_getN_out_of_range (ns : List SMI.Node) (h : Nat) (hgt : ns.length < h) :
    SMI.getN ns h = SMI.zeroNode := by
  unfold SMI.getN
  rw [List.getD_eq_default]
  omega

/-- C6 (amended): after `match_many_optionally(p)` returns successfully, the
cursor set is exactly `cursors_before ++ T` where `T` is the sub-terminal list
recorded by `consume_regex_except_root`; the cycle- and entry-installation
linking calls are made with an empty watch list and their results are
discarded, so replacement clones produced during them are never added to the
cursor set. -/
theorem c6_kleene_final_cursor_set (fuel : Nat) (B p B' : SMI.Builder)
    (h : SMI.matchManyOptionally fuel B p = Except.ok B') :
    B'.cursors = B.cursors ++ (SMI.consumeRegexExceptRoot B p).2.terminals := by
  unfold SMI.matchManyOptionally at h
  dsimp only at h
  split at h
  · exact absurd h (by simp)
  · split at h
    · exact absurd h (by simp)
    · simp only [Except.ok.injEq] at h
      subst h
      rfl

/-- C6 witness: the amended statement instantiated at the Kleene
counterexample run. -/
theorem c6_kleene_final_cursor_set_witness :
    SMI.matchManyOptionally 10 SMI.hostA SMI.patternA = Except.ok SMI.kleeneRun
    ∧ SMI.kleeneRun.cursors =
        SMI.hostA.cursors ++ (SMI.consumeRegexExceptRoot SMI.hostA SMI.patternA).2.terminals :=
  ⟨rfl, c6_kleene_final_cursor_set 10 SMI.hostA SMI.patternA SMI.kleeneRun rfl⟩

theorem smi_mdStep_fold (policy : SMI.ConflictAction) (dIdx : Nat) :
    ∀ (cs : List Nat) (ns : List SMI.Node) (ncs : List Nat) (errs : Nat),
      cs.Nodup →
      (∀ c ∈ cs, 1 ≤ c ∧ c < dIdx) →
      ns.length = dIdx →
      ((cs.foldl (SMI.mdStep policy dIdx) (ns, ncs, errs)).1.length = ns.length
      ∧ (∀ h2, 1 ≤ h2 → h2 ∉ cs →
          SMI.getN (cs.foldl (SMI.mdStep policy dIdx) (ns, ncs, errs)).1 h2 = SMI.getN ns h2)
      ∧ (cs.foldl (SMI.mdStep policy dIdx) (ns, ncs, errs)).2.2 =
          errs + (if policy = SMI.ConflictAction.error then
            (cs.filter fun c => decide ((SMI.getN ns c).transitions SMI.defSlot ≠ 0)).length
          else 0)
      ∧ (cs.foldl (SMI.mdStep policy dIdx) (ns, ncs, errs)).2.1 =
          ncs ++ (if policy = SMI.ConflictAction.skip then
            (cs.filter fun c => decide ((SMI.getN ns c).transitions SMI.defSlot ≠ 0)).map
              (fun c => (SMI.getN ns c).transitions SMI.defSlot)
          else [])
      ∧ (∀ c ∈ cs,
          (SMI.getN (cs.foldl (SMI.mdStep policy dIdx) (ns, ncs, errs)).1 c).transitions
              SMI.defSlot =
            if (SMI.getN ns c).transitions SMI.defSlot ≠ 0
               ∧ policy ≠ SMI.ConflictAction.overwrite
            then (SMI.getN ns c).transitions SMI.defSlot else dIdx)) := by
  intro cs
  induction cs with
  | nil =>
    intro ns ncs errs _ _ _
    refine ⟨rfl, fun h2 _ _ => rfl, by simp, by simp, by simp⟩
  | cons c cs ih =>
    intro ns ncs errs hnd hv hlen
    obtain ⟨hc1, hcd⟩ := hv c (by simp)
    have hvrest : ∀ x ∈ cs, 1 ≤ x ∧ x < dIdx := fun x hx => hv x (by simp [hx])
    have hcnotin : c ∉ cs := (List.nodup_cons.mp hnd).1
    have hndrest : cs.Nodup := (List.nodup_cons.mp hnd).2
    rw [List.foldl_cons]
    by_cases hocc : (SMI.getN ns c).transitions SMI.defSlot = 0
    · have hstep : SMI.mdStep policy dIdx (ns, ncs, errs) c =
          (SMI.setT ns c SMI.defSlot dIdx, ncs, errs) := by
        simp [SMI.mdStep, hocc]
      rw [hstep]
      have hlen1 : (SMI.setT ns c SMI.defSlot dIdx).length = dIdx := by
        rw [smi_setT_length]; exact hlen
      have hag : ∀ x ∈ cs,
          SMI.getN (SMI.setT ns c SMI.defSlot dIdx) x = SMI.getN ns x := by
        intro x hx
        exact smi_getN_setT_ne _ _ _ _ _ hc1 (hvrest x hx).1
          (by rintro rfl; exact hcnotin hx)
      obtain ⟨ihlen, ihpres, iherr, ihncs, ihrule⟩ :=
        ih (SMI.setT ns c SMI.defSlot dIdx) ncs errs hndrest hvrest hlen1
      have hfilter :
          (cs.filter fun x =>
            decide ((SMI.getN (SMI.setT ns c SMI.defSlot dIdx) x).transitions SMI.defSlot ≠ 0)) =
          (cs.filter fun x => decide ((SMI.getN ns x).transitions SMI.defSlot ≠ 0)) := by
        apply List.filter_congr
        intro x hx
        rw [hag x hx]
      refine ⟨?_, ?_, ?_, ?_, ?_⟩
      · rw [ihlen, smi_setT_length]
      · intro h2 h21 h2nin
        rw [ihpres h2 h21 (fun hx => h2nin (by simp [hx]))]
        exact smi_getN_setT_ne _ _ _ _ _ hc1 h21 (fun hx => h2nin (by simp [hx]))
      · rw [iherr, hfilter, List.filter_cons_of_neg]
        simp [hocc]
      · rw [ihncs, hfilter, List.filter_cons_of_neg]
        · congr 1
          split
          · apply List.map_congr_left
            intro x hx
            rw [hag x (List.mem_of_mem_filter hx)]
          · rfl
        · simp [hocc]
      · intro x hx
        rcases List.mem_cons.mp hx with hx | hx
        · subst hx
          rw [ihpres x hc1 hcnotin,
            smi_getN_setT_self ns x SMI.defSlot dIdx hc1 (by omega)]
          simp [hocc]
        · rw [ihrule x hx, hag x hx]
    · cases policy with
      | skip =>
        have hstep : SMI.mdStep SMI.ConflictAction.skip dIdx (ns, ncs, errs) c =
            (ns, ncs ++ [(SMI.getN ns c).transitions SMI.defSlot], errs) := by
          simp [SMI.mdStep, hocc]
        rw [hstep]
        obtain ⟨ihlen, ihpres, iherr, ihncs, ihrule⟩ :=
          ih ns (ncs ++ [(SMI.getN ns c).transitions SMI.defSlot]) errs hndrest hvrest hlen
        refine ⟨ihlen, ?_, ?_, ?_, ?_⟩
        · intro h2 h21 h2nin
          exact ihpres h2 h21 (fun hx => h2nin (by simp [hx]))
        · rw [iherr]; simp
        · rw [ihncs, List.filter_cons_of_pos (by simp [hocc])]
          simp
        · intro x hx
          rcases List.mem_cons.mp hx with hx | hx
          · subst hx
            rw [ihpres x hc1 hcnotin]
            simp [hocc]
          · exact ihrule x hx
      | overwrite =>
        have hstep : SMI.mdStep SMI.ConflictAction.overwrite dIdx (ns, ncs, errs) c =
            (SMI.setT ns c SMI.defSlot dIdx, ncs, errs) := by
          simp [SMI.mdStep, hocc]
        rw [hstep]
        have hlen1 : (SMI.setT ns c SMI.defSlot dIdx).length = dIdx := by
          rw [smi_setT_length]; exact hlen
        have hag : ∀ x ∈ cs,
            SMI.getN (SMI.setT ns c SMI.defSlot dIdx) x = SMI.getN ns x := by
          intro x hx
          exact smi_getN_setT_ne _ _ _ _ _ hc1 (hvrest x hx).1
            (by rintro rfl; exact hcnotin hx)
        obtain ⟨ihlen, ihpres, iherr, ihncs, ihrule⟩ :=
          ih (SMI.setT ns c SMI.defSlot dIdx) ncs errs hndrest hvrest hlen1
        refine ⟨?_, ?_, ?_, ?_, ?_⟩
        · rw [ihlen, smi_setT_length]
        · intro h2 h21 h2nin
          rw [ihpres h2 h21 (fun hx => h2nin (by simp [hx]))]
          exact smi_getN_setT_ne _ _ _ _ _ hc1 h21 (fun hx => h2nin (by simp [hx]))
        · rw [iherr]; simp
        · rw [ihncs]; simp
        · intro x hx
          rcases List.mem_cons.mp hx with hx | hx
          · subst hx
            rw [ihpres x hc1 hcnotin,
              smi_getN_setT_self ns x SMI.defSlot dIdx hc1 (by omega)]
            simp
          · rw [ihrule x hx, hag x hx]
      | error =>
        have hstep : SMI.mdStep SMI.ConflictAction.error dIdx (ns, ncs, errs) c =
            (ns, ncs, errs + 1) := by
          simp [SMI.mdStep, hocc]
        rw [hstep]
        obtain ⟨ihlen, ihpres, iherr, ihncs, ihrule⟩ :=
          ih ns ncs (errs + 1) hndrest hvrest hlen
        refine ⟨ihlen, ?_, ?_, ?_, ?_⟩
        · intro h2 h21 h2nin
          exact ihpres h2 h21 (fun hx => h2nin (by simp [hx]))
        · rw [iherr, List.filter_cons_of_pos (by simp [hocc])]
          simp
          omega
        · rw [ihncs]; simp
        · intro x hx
          rcases List.mem_cons.mp hx with hx | hx
          · subst hx
            rw [ihpres x hc1 hcnotin]
            simp [hocc]
          · exact ihrule x hx

/-- C7 (amended): for every builder state with distinct, in-range cursors,
`match_default` allocates a single fresh node and installs it as the default
transition of each cursor whose default slot is empty; on each occupied slot it
applies the conflict policy — and the resulting cursor set is the fresh node
together with, under the skip policy, the pre-existing default destinations of
the occupied cursors (so it is the singleton `{fresh_node}` only when no slot
was occupied or the policy is overwrite); under the error policy an occupied
slot fails the construction. -/
theorem c7_match_default_policy_spec (B : SMI.Builder)
    (hnd : B.cursors.Nodup)
    (hv : ∀ c ∈ B.cursors, 1 ≤ c ∧ c ≤ B.nodes.length) :
    (if B.onConflict = SMI.ConflictAction.error
        ∧ (B.cursors.filter fun c => decide (SMI.defOf B c ≠ 0)) ≠ []
     then SMI.matchDefault B = Except.error "existing default transition would be replaced"
     else ∃ B', SMI.matchDefault B = Except.ok B'
        ∧ B'.cursors = (B.nodes.length + 1) ::
            (if B.onConflict = SMI.ConflictAction.skip
             then (B.cursors.filter fun c => decide (SMI.defOf B c ≠ 0)).map (SMI.defOf B)
             else [])
        ∧ ∀ c ∈ B.cursors,
            SMI.defOf B' c =
              if SMI.defOf B c ≠ 0 ∧ B.onConflict ≠ SMI.ConflictAction.overwrite
              then SMI.defOf B c
              else B.nodes.length + 1) := by
  have hv2 : ∀ c ∈ B.cursors, 1 ≤ c ∧ c < B.nodes.length + 1 := by
    intro c hc; obtain ⟨a, b⟩ := hv c hc; omega
  have hlen : (B.nodes ++ [SMI.zeroNode]).length = B.nodes.length + 1 := by simp
  obtain ⟨flen, fpres, ferr, fncs, frule⟩ :=
    smi_mdStep_fold B.onConflict (B.nodes.length + 1) B.cursors (B.nodes ++ [SMI.zeroNode])
      [] 0 hnd hv2 hlen
  have happ : ∀ c ∈ B.cursors,
      SMI.getN (B.nodes ++ [SMI.zeroNode]) c = SMI.getN B.nodes c := by
    intro c hc
    exact smi_getN_append _ _ _ (hv c hc).1 (hv c hc).2
  have hfeq : (B.cursors.filter fun c =>
        decide ((SMI.getN (B.nodes ++ [SMI.zeroNode]) c).transitions SMI.defSlot ≠ 0))
      = (B.cursors.filter fun c => decide (SMI.defOf B c ≠ 0)) := by
    apply List.filter_congr
    intro c hc
    rw [happ c hc]
    rfl
  have hmd : SMI.matchDefault B =
      (if (B.cursors.foldl (SMI.mdStep B.onConflict (B.nodes.length + 1))
            (B.nodes ++ [SMI.zeroNode], [], 0)).2.2 ≠ 0
       then Except.error "existing default transition would be replaced"
       else Except.ok
         { nodes := (B.cursors.foldl (SMI.mdStep B.onConflict (B.nodes.length + 1))
              (B.nodes ++ [SMI.zeroNode], [], 0)).1,
           cursors := (B.nodes.length + 1) ::
             (B.cursors.foldl (SMI.mdStep B.onConflict (B.nodes.length + 1))
              (B.nodes ++ [SMI.zeroNode], [], 0)).2.1,
           onConflict := B.onConflict }) := rfl
  by_cases hcond : B.onConflict = SMI.ConflictAction.error
      ∧ (B.cursors.filter fun c => decide (SMI.defOf B c ≠ 0)) ≠ []
  · rw [if_pos hcond, hmd, if_pos]
    rw [ferr, hcond.1, if_pos rfl, hfeq]
    have : (B.cursors.filter fun c => decide (SMI.defOf B c ≠ 0)).length ≠ 0 := by
      intro h0
      exact hcond.2 (List.length_eq_zero.mp h0)
    omega
  · rw [if_neg hcond]
    have herr0 : (B.cursors.foldl (SMI.mdStep B.onConflict (B.nodes.length + 1))
        (B.nodes ++ [SMI.zeroNode], [], 0)).2.2 = 0 := by
      rw [ferr, hfeq]
      by_cases hp : B.onConflict = SMI.ConflictAction.error
      · have hfe : (B.cursors.filter fun c => decide (SMI.defOf B c ≠ 0)) = [] := by
          by_contra hne
          exact hcond ⟨hp, hne⟩
        rw [if_pos hp, hfe]
        rfl
      · rw [if_neg hp]
    refine ⟨SMI.Builder.mk
        (B.cursors.foldl (SMI.mdStep B.onConflict (B.nodes.length + 1))
          (B.nodes ++ [SMI.zeroNode], [], 0)).1
        ((B.nodes.length + 1) ::
          (B.cursors.foldl (SMI.mdStep B.onConflict (B.nodes.length + 1))
            (B.nodes ++ [SMI.zeroNode], [], 0)).2.1)
        B.onConflict, ?_, ?_, ?_⟩
    · rw [hmd, if_neg (by omega)]
    · show (B.nodes.length + 1) :: _ = (B.nodes.length + 1) :: _
      congr 1
      rw [fncs, hfeq]
      rw [List.nil_append]
      split
      · apply List.map_congr_left
        intro c hc
        rw [happ c (List.mem_of_mem_filter hc)]
        rfl
      · rfl
    · intro c hc
      show (SMI.getN (B.cursors.foldl (SMI.mdStep B.onConflict (B.nodes.length + 1))
          (B.nodes ++ [SMI.zeroNode], [], 0)).1 c).transitions SMI.defSlot = _
      rw [frule c hc, happ c hc]
      rfl

/-- C7 witness: the amended statement instantiated at the skip-policy builder
whose root cursor already has a default transition. -/
theorem c7_match_default_policy_spec_witness :
    SMI.builderDefSkip.cursors.Nodup
    ∧ (∀ c ∈ SMI.builderDefSkip.cursors, 1 ≤ c ∧ c ≤ SMI.builderDefSkip.nodes.length)
    ∧ (if SMI.builderDefSkip.onConflict = SMI.ConflictAction.error
          ∧ (SMI.builderDefSkip.cursors.filter fun c =>
              decide (SMI.defOf SMI.builderDefSkip c ≠ 0)) ≠ []
       then SMI.matchDefault SMI.builderDefSkip =
          Except.error "existing default transition would be replaced"
       else ∃ B', SMI.matchDefault SMI.builderDefSkip = Except.ok B'
          ∧ B'.cursors = (SMI.builderDefSkip.nodes.length + 1) ::
              (if SMI.builderDefSkip.onConflict = SMI.ConflictAction.skip
               then (SMI.builderDefSkip.cursors.filter fun c =>
                  decide (SMI.defOf SMI.builderDefSkip c ≠ 0)).map (SMI.defOf SMI.builderDefSkip)
               else [])
          ∧ ∀ c ∈ SMI.builderDefSkip.cursors,
              SMI.defOf B' c =
                if SMI.defOf SMI.builderDefSkip c ≠ 0
                   ∧ SMI.builderDefSkip.onConflict ≠ SMI.ConflictAction.overwrite
                then SMI.defOf SMI.builderDefSkip c
                else SMI.builderDefSkip.nodes.length + 1) :=
  ⟨by decide, by decide,
    c7_match_default_policy_spec SMI.builderDefSkip (by decide) (by decide)⟩

theorem smi_setT_fold (key dst : Nat) :
    ∀ (cs : List Nat) (ns : List SMI.Node),
      cs.Nodup →
      (∀ c ∈ cs, 1 ≤ c ∧ c ≤ ns.length) →
      ((cs.foldl (fun ns1 c => SMI.setT ns1 c key dst) ns).length = ns.length
      ∧ (∀ h2, 1 ≤ h2 → h2 ∉ cs →
          SMI.getN (cs.foldl (fun ns1 c => SMI.setT ns1 c key dst) ns) h2 = SMI.getN ns h2)
      ∧ (∀ c ∈ cs,
          SMI.getN (cs.foldl (fun ns1 c => SMI.setT ns1 c key dst) ns) c =
            { transitions := fun k => if k = key then dst else (SMI.getN ns c).transitions k,
              value := (SMI.getN ns c).value })) := by
  intro cs
  induction cs with
  | nil =>
    intro ns _ _
    exact ⟨rfl, fun h2 _ _ => rfl, by simp⟩
  | cons c cs ih =>
    intro ns hnd hv
    obtain ⟨hc1, hcl⟩ := hv c (by simp)
    have hcnotin : c ∉ cs := (List.nodup_cons.mp hnd).1
    have hvrest : ∀ x ∈ cs, 1 ≤ x ∧ x ≤ (SMI.setT ns c key dst).length := by
      intro x hx
      rw [smi_setT_length]
      exact hv x (by simp [hx])
    rw [List.foldl_cons]
    obtain ⟨ihlen, ihpres, ihval⟩ := ih (SMI.setT ns c key dst) (List.nodup_cons.mp hnd).2 hvrest
    refine ⟨?_, ?_, ?_⟩
    · rw [ihlen, smi_setT_length]
    · intro h2 h21 h2nin
      rw [ihpres h2 h21 (fun hx => h2nin (by simp [hx]))]
      exact smi_getN_setT_ne _ _ _ _ _ hc1 h21 (fun hx => h2nin (by simp [hx]))
    · intro x hx
      rcases List.mem_cons.mp hx with heq | hmem
      · subst heq
        rw [ihpres x hc1 hcnotin, smi_getN_setT_self ns x key dst hc1 hcl]
      · have hxc : x ≠ c := by
          rintro rfl
          exact hcnotin hmem
        rw [ihval x hmem,
          smi_getN_setT_ne ns c x key dst hc1 (hvrest x hmem).1 hxc]

theorem smi_cdt_all_absent (B : SMI.Builder) (key : Nat)
    (hne : B.cursors ≠ []) (hnd : B.cursors.Nodup)
    (hv : ∀ c ∈ B.cursors, 1 ≤ c ∧ c ≤ B.nodes.length)
    (habs : ∀ c ∈ B.cursors, (SMI.getN B.nodes c).transitions key = 0) :
    (SMI.cursorDiscreetTransition B key).cursors = [B.nodes.length + 1]
    ∧ (SMI.cursorDiscreetTransition B key).nodes.length = B.nodes.length + 1
    ∧ (SMI.cursorDiscreetTransition B key).onConflict = B.onConflict
    ∧ (∀ c ∈ B.cursors,
        SMI.getN (SMI.cursorDiscreetTransition B key).nodes c =
          { transitions := fun k => if k = key then B.nodes.length + 1
              else (SMI.getN B.nodes c).transitions k,
            value := (SMI.getN B.nodes c).value })
    ∧ (∀ h2, 1 ≤ h2 → h2 ∉ B.cursors →
        SMI.getN (SMI.cursorDiscreetTransition B key).nodes h2 = SMI.getN B.nodes h2) := by
  have hwc : (B.cursors.filter fun c => decide ((SMI.getN B.nodes c).transitions key = 0))
      = B.cursors := by
    rw [List.filter_eq_self]
    intro c hc
    simp [habs c hc]
  have hwc2 : (B.cursors.filter fun c => decide ((SMI.getN B.nodes c).transitions key ≠ 0))
      = [] := by
    rw [List.filter_eq_nil_iff]
    intro c hc
    simp [habs c hc]
  have hvapp : ∀ c ∈ B.cursors, 1 ≤ c ∧ c ≤ (B.nodes ++ [SMI.zeroNode]).length := by
    intro c hc
    obtain ⟨a, b⟩ := hv c hc
    simp only [List.length_append, List.length_cons, List.length_nil]
    omega
  obtain ⟨flen, fpres, fval⟩ :=
    smi_setT_fold key (B.nodes.length + 1) B.cursors (B.nodes ++ [SMI.zeroNode]) hnd hvapp
  have hcdt : SMI.cursorDiscreetTransition B key =
      { nodes := B.cursors.foldl
          (fun ns1 c => SMI.setT ns1 c key (B.nodes.length + 1)) (B.nodes ++ [SMI.zeroNode]),
        cursors := [B.nodes.length + 1],
        onConflict := B.onConflict } := by
    have hie : B.cursors.isEmpty = false := by
      cases hcs : B.cursors with
      | nil => exact absurd hcs hne
      | cons a l => rfl
    unfold SMI.cursorDiscreetTransition
    dsimp only
    rw [hwc, hwc2, hie]
    simp
  rw [hcdt]
  refine ⟨rfl, ?_, rfl, ?_, ?_⟩
  · show (List.foldl (fun ns1 c => SMI.setT ns1 c key (B.nodes.length + 1))
        (B.nodes ++ [SMI.zeroNode]) B.cursors).length = B.nodes.length + 1
    rw [flen]
    simp
  · intro c hc
    rw [fval c hc, smi_getN_append _ _ _ (hv c hc).1 (hv c hc).2]
  · intro h2 h21 h2nin
    show SMI.getN (List.foldl (fun ns1 c => SMI.setT ns1 c key (B.nodes.length + 1))
        (B.nodes ++ [SMI.zeroNode]) B.cursors) h2 = SMI.getN B.nodes h2
    rw [fpres h2 h21 h2nin]
    by_cases hle : h2 ≤ B.nodes.length
    · exact smi_getN_append _ _ _ h21 hle
    · by_cases heq : h2 = B.nodes.length + 1
      · subst heq
        rw [smi_getN_append_fresh, smi_getN_out_of_range _ _ (by omega)]
      · rw [smi_getN_out_of_range (B.nodes ++ [SMI.zeroNode]) h2
            (by simp only [List.length_append, List.length_cons, List.length_nil]; omega),
          smi_getN_out_of_range _ _ (by omega)]

theorem smi_matchAnyOfGo_spec :
    ∀ (cs : List Nat) (B : SMI.Builder) (acc : List Nat),
      cs.Nodup → B.cursors ≠ [] → B.cursors.Nodup →
      (∀ c ∈ B.cursors, 1 ≤ c ∧ c ≤ B.nodes.length) →
      (∀ c ∈ B.cursors, ∀ k ∈ cs, (SMI.getN B.nodes c).transitions k = 0) →
      ((SMI.matchAnyOfGo B B.cursors cs acc).nodes.length = B.nodes.length + cs.length
      ∧ (SMI.matchAnyOfGo B B.cursors cs acc).cursors =
          acc ++ (List.range cs.length).map (fun i => B.nodes.length + 1 + i)
      ∧ (∀ c ∈ B.cursors, ∀ i, i < cs.length →
          (SMI.getN (SMI.matchAnyOfGo B B.cursors cs acc).nodes c).transitions (cs.getD i 0) =
            B.nodes.length + 1 + i)
      ∧ (∀ c ∈ B.cursors, ∀ k2, k2 ∉ cs →
          (SMI.getN (SMI.matchAnyOfGo B B.cursors cs acc).nodes c).transitions k2 =
            (SMI.getN B.nodes c).transitions k2)
      ∧ (∀ h2, 1 ≤ h2 → h2 ∉ B.cursors →
          SMI.getN (SMI.matchAnyOfGo B B.cursors cs acc).nodes h2 = SMI.getN B.nodes h2)) := by
  intro cs
  induction cs with
  | nil =>
    intro B acc _ _ _ _ _
    refine ⟨by simp [SMI.matchAnyOfGo], by simp [SMI.matchAnyOfGo], ?_, ?_, ?_⟩
    · intro c _ i hi
      exact absurd hi (by simp)
    · intro c _ k2 _
      rfl
    · intro h2 _ _
      rfl
  | cons k rest ih =>
    intro B acc hnd hne hcnd hv habs
    have hknotin : k ∉ rest := (List.nodup_cons.mp hnd).1
    have hndrest : rest.Nodup := (List.nodup_cons.mp hnd).2
    obtain ⟨ccur, clen, _cpol, cval, cpres⟩ :=
      smi_cdt_all_absent B k hne hcnd hv (fun c hc => habs c hc k (by simp))
    have hBeta : ({ B with cursors := B.cursors } : SMI.Builder) = B := rfl
    have hunf : SMI.matchAnyOfGo B B.cursors (k :: rest) acc =
        SMI.matchAnyOfGo
          { SMI.cursorDiscreetTransition B k with cursors := B.cursors }
          B.cursors rest (acc ++ [B.nodes.length + 1]) := by
      simp only [SMI.matchAnyOfGo]
      rw [hBeta, ccur]
    have hlenB2 : ({ SMI.cursorDiscreetTransition B k with
        cursors := B.cursors } : SMI.Builder).nodes.length = B.nodes.length + 1 := clen
    have hv2 : ∀ c ∈ B.cursors, 1 ≤ c ∧ c ≤
        ({ SMI.cursorDiscreetTransition B k with
          cursors := B.cursors } : SMI.Builder).nodes.length := by
      intro c hc
      obtain ⟨a, b⟩ := hv c hc
      rw [hlenB2]
      omega
    have habs2 : ∀ c ∈ B.cursors, ∀ k2 ∈ rest,
        (SMI.getN ({ SMI.cursorDiscreetTransition B k with
          cursors := B.cursors } : SMI.Builder).nodes c).transitions k2 = 0 := by
      intro c hc k2 hk2
      show (SMI.getN (SMI.cursorDiscreetTransition B k).nodes c).transitions k2 = 0
      rw [cval c hc]
      have hkk : k2 ≠ k := by rintro rfl; exact hknotin hk2
      show (if k2 = k then B.nodes.length + 1
        else (SMI.getN B.nodes c).transitions k2) = 0
      rw [if_neg hkk]
      exact habs c hc k2 (by simp [hk2])
    obtain ⟨ihlen, ihcur, ihslot, ihkey, ihpres⟩ :=
      ih { SMI.cursorDiscreetTransition B k with cursors := B.cursors }
        (acc ++ [B.nodes.length + 1]) hndrest hne hcnd hv2 habs2
    have hcproj : ({ SMI.cursorDiscreetTransition B k with
        cursors := B.cursors } : SMI.Builder).cursors = B.cursors := rfl
    rw [hcproj] at ihlen ihcur ihslot ihkey ihpres
    rw [hlenB2] at ihlen ihcur ihslot
    refine ⟨?_, ?_, ?_, ?_, ?_⟩
    · rw [hunf, ihlen]
      simp only [List.length_cons]
      omega
    · rw [hunf, ihcur, List.append_assoc]
      congr 1
      simp only [List.length_cons]
      rw [List.singleton_append, List.range_succ_eq_map, List.map_cons, List.map_map]
      congr 1
      apply List.map_congr_left
      intro i _
      simp only [Function.comp_apply]
      omega
    · intro c hc i hi
      cases i with
      | zero =>
        rw [List.getD_cons_zero, hunf, ihkey c hc k hknotin]
        show (SMI.getN (SMI.cursorDiscreetTransition B k).nodes c).transitions k = _
        rw [cval c hc]
        show (if k = k then B.nodes.length + 1
          else (SMI.getN B.nodes c).transitions k) = B.nodes.length + 1 + 0
        rw [if_pos rfl]
      | succ j =>
        have hj : j < rest.length := by
          simp only [List.length_cons] at hi
          omega
        rw [List.getD_cons_succ, hunf, ihslot c hc j hj]
        omega
    · intro c hc k2 hk2
      have hk2r : k2 ∉ rest := fun hx => hk2 (by simp [hx])
      have hkk : k2 ≠ k := fun hx => hk2 (by simp [hx])
      rw [hunf, ihkey c hc k2 hk2r]
      show (SMI.getN (SMI.cursorDiscreetTransition B k).nodes c).transitions k2 = _
      rw [cval c hc]
      show (if k2 = k then B.nodes.length + 1
        else (SMI.getN B.nodes c).transitions k2) = _
      rw [if_neg hkk]
    · intro h2 h21 h2nin
      rw [hunf, ihpres h2 h21 h2nin]
      show SMI.getN (SMI.cursorDiscreetTransition B k).nodes h2 = SMI.getN B.nodes h2
      exact cpres h2 h21 h2nin

/-- C5 (amended): for every builder state with distinct in-range cursors and
every duplicate-free choice list none of whose keys any cursor already has,
`match_any_of` transitions from the initial cursor set on each choice and
accumulates the results; the cursors lacking a choice's transition all share
one fresh destination node allocated for that choice — one fresh node per
choice, not a single node for all choices — so the new cursor set is the list
of the per-choice fresh nodes (pairwise distinct when more than one choice is
given), and one further node allocated at entry (`target`) remains unused. -/
theorem c5_match_any_of_per_choice (B : SMI.Builder) (cs : List Nat)
    (hne : B.cursors ≠ []) (hnd : cs.Nodup) (hcnd : B.cursors.Nodup)
    (hv : ∀ c ∈ B.cursors, 1 ≤ c ∧ c ≤ B.nodes.length)
    (habs : ∀ c ∈ B.cursors, ∀ k ∈ cs, (SMI.getN B.nodes c).transitions k = 0) :
    (SMI.matchAnyOf B cs).nodes.length = B.nodes.length + 1 + cs.length
    ∧ (SMI.matchAnyOf B cs).cursors =
        (List.range cs.length).map (fun i => B.nodes.length + 2 + i)
    ∧ (∀ c ∈ B.cursors, ∀ i, i < cs.length →
        (SMI.getN (SMI.matchAnyOf B cs).nodes c).transitions (cs.getD i 0) =
          B.nodes.length + 2 + i)
    ∧ SMI.getN (SMI.matchAnyOf B cs).nodes (B.nodes.length + 1) = SMI.zeroNode := by
  have hcproj : ({ B with nodes := B.nodes ++ [SMI.zeroNode] } : SMI.Builder).cursors
      = B.cursors := rfl
  have hlenB1 : ({ B with nodes := B.nodes ++ [SMI.zeroNode] } : SMI.Builder).nodes.length
      = B.nodes.length + 1 := by
    show (B.nodes ++ [SMI.zeroNode]).length = B.nodes.length + 1
    simp
  have hv1 : ∀ c ∈ B.cursors, 1 ≤ c ∧ c ≤
      ({ B with nodes := B.nodes ++ [SMI.zeroNode] } : SMI.Builder).nodes.length := by
    intro c hc
    obtain ⟨a, b⟩ := hv c hc
    rw [hlenB1]
    omega
  have habs1 : ∀ c ∈ B.cursors, ∀ k ∈ cs,
      (SMI.getN ({ B with nodes := B.nodes ++ [SMI.zeroNode] } : SMI.Builder).nodes c).transitions
        k = 0 := by
    intro c hc k hk
    show (SMI.getN (B.nodes ++ [SMI.zeroNode]) c).transitions k = 0
    rw [smi_getN_append _ _ _ (hv c hc).1 (hv c hc).2]
    exact habs c hc k hk
  obtain ⟨glen, gcur, gslot, _gkey, gpres⟩ :=
    smi_matchAnyOfGo_spec cs { B with nodes := B.nodes ++ [SMI.zeroNode] } []
      hnd hne hcnd hv1 habs1
  rw [hcproj] at glen gcur gslot gpres
  rw [hlenB1] at glen gcur gslot
  have hunf : SMI.matchAnyOf B cs =
      SMI.matchAnyOfGo { B with nodes := B.nodes ++ [SMI.zeroNode] } B.cursors cs [] := rfl
  refine ⟨?_, ?_, ?_, ?_⟩
  · rw [hunf, glen]
  · rw [hunf, gcur, List.nil_append]
  · intro c hc i hi
    rw [hunf, gslot c hc i hi]
  · rw [hunf, gpres (B.nodes.length + 1) (by omega)
      (fun hx => by have := (hv _ hx).2; omega)]
    show SMI.getN (B.nodes ++ [SMI.zeroNode]) (B.nodes.length + 1) = SMI.zeroNode
    exact smi_getN_append_fresh B.nodes SMI.zeroNode

/-- C5 witness: the amended statement instantiated at a fresh builder with the
choices {a, b}. -/
theorem c5_match_any_of_per_choice_witness :
    SMI.builderFresh.cursors ≠ []
    ∧ ([97, 98] : List Nat).Nodup
    ∧ ((SMI.matchAnyOf SMI.builderFresh [97, 98]).nodes.length =
          SMI.builderFresh.nodes.length + 1 + ([97, 98] : List Nat).length
      ∧ (SMI.matchAnyOf SMI.builderFresh [97, 98]).cursors =
          (List.range ([97, 98] : List Nat).length).map
            (fun i => SMI.builderFresh.nodes.length + 2 + i)
      ∧ (∀ c ∈ SMI.builderFresh.cursors, ∀ i, i < ([97, 98] : List Nat).length →
          (SMI.getN (SMI.matchAnyOf SMI.builderFresh [97, 98]).nodes c).transitions
              (([97, 98] : List Nat).getD i 0) =
            SMI.builderFresh.nodes.length + 2 + i)
      ∧ SMI.getN (SMI.matchAnyOf SMI.builderFresh [97, 98]).nodes
          (SMI.builderFresh.nodes.length + 1) = SMI.zeroNode) :=
  ⟨by decide, by decide,
    c5_match_any_of_per_choice SMI.builderFresh [97, 98] (by decide) (by decide) (by decide)
      (by decide) (by decide)⟩

/-- C4 witness: the amended statement instantiated at the machine accepting
"ab" and "ba" with the input "aba" (lookup returns position 1 with the payload
of "ab"), together with a sample evaluation of the instances. -/
theorem c4_lookup_longest_nonempty_accepting_prefix_witness :
    RB.lookupStart RB.machineAbBa [97, 98, 97] = some (1, ())
    ∧ (match RB.lookupStart RB.machineAbBa [97, 98, 97] with
       | some (p, v) =>
           p < ([97, 98, 97] : List Nat).length
           ∧ RB.payloadAt RB.machineAbBa [97, 98, 97] (p + 1) = some v
           ∧ ∀ k, p + 1 < k → k ≤ ([97, 98, 97] : List Nat).length →
               RB.acceptsAt RB.machineAbBa [97, 98, 97] k = false
       | none => ∀ k, 1 ≤ k → k ≤ ([97, 98, 97] : List Nat).length →
           RB.acceptsAt RB.machineAbBa [97, 98, 97] k = false) :=
  ⟨rfl, c4_lookup_longest_nonempty_accepting_prefix Unit RB.machineAbBa [97, 98, 97]⟩
